import Mathlib

/-!
Shallow embedding of the retrieval-and-answer engine of the campus RAG
service (preprocessing ids and chunking, hybrid retrieval fusion, date
post-filter, re-rank normalization, admin approval id derivation, router,
incremental sync), together with proofs settling the frozen claims.

Python strings are modelled as `String` or `List Char` (sequences of
unicode code points), Python floats as `ℚ` (treated as exact reals),
Python ints as `Int`/`Nat`, Python `None`-able values as `Option`.
-/

namespace RagSpec

/-! ### UTF-8 encoding and SHA1 (hashlib.sha1(...).hexdigest() of Python) -/

/-- Standard UTF-8 encoding of a unicode code point, as a list of byte
values.  Models `str.encode("utf-8")` character-wise. -/
def utf8EncodeChar (n : Nat) : List Nat :=
  if n < 128 then [n]
  else if n < 2048 then [192 + n / 64, 128 + n % 64]
  else if n < 65536 then [224 + n / 4096, 128 + (n / 64) % 64, 128 + n % 64]
  else [240 + n / 262144, 128 + (n / 4096) % 64, 128 + (n / 64) % 64, 128 + n % 64]

/-- UTF-8 bytes of a string (models Python `s.encode("utf-8")`). -/
def strBytes (s : String) : List Nat :=
  s.data.foldr (fun c acc => utf8EncodeChar c.toNat ++ acc) []

/-- The modulus for 32-bit words. -/
def M32 : Nat := 4294967296

/-- Left rotation of a 32-bit word by `n` bits. -/
def rotl (n x : Nat) : Nat :=
  ((x <<< n) ||| (x >>> (32 - n))) % M32

/-- SHA1 working state (five 32-bit words). -/
structure Sha1State where
  a : Nat
  b : Nat
  c : Nat
  d : Nat
  e : Nat

/-- Initial SHA1 state per the standard. -/
def sha1Init : Sha1State :=
  ⟨0x67452301, 0xEFCDAB89, 0x98BADCFE, 0x10325476, 0xC3D2E1F0⟩

/-- Round function of SHA1 (choose / parity / majority). -/
def sha1F (t b c d : Nat) : Nat :=
  if t < 20 then (b &&& c) ||| ((4294967295 - b) &&& d)
  else if t < 40 then b ^^^ c ^^^ d
  else if t < 60 then (b &&& c) ||| (b &&& d) ||| (c &&& d)
  else b ^^^ c ^^^ d

/-- Round constants of SHA1. -/
def sha1K (t : Nat) : Nat :=
  if t < 20 then 0x5A827999
  else if t < 40 then 0x6ED9EBA1
  else if t < 60 then 0x8F1BBCDC
  else 0xCA62C1D6

/-- Word at index `i` in a word list (out of range reads 0; all our reads
are in range). -/
def wordAt (w : List Nat) (i : Nat) : Nat := w.getD i 0

/-- Extend a 16-word block by `n` additional schedule words. -/
def sha1Extend : Nat → List Nat → List Nat
  | 0, w => w
  | n + 1, w =>
    let x := rotl 1 ((wordAt w (w.length - 3)) ^^^ (wordAt w (w.length - 8)) ^^^
      (wordAt w (w.length - 14)) ^^^ (wordAt w (w.length - 16)))
    sha1Extend n (w ++ [x])

/-- The 80 compression rounds, consuming the schedule words in order. -/
def sha1Rounds : List Nat → Nat → Sha1State → Sha1State
  | [], _, st => st
  | w :: ws, t, st =>
    let temp := (rotl 5 st.a + sha1F t st.b st.c st.d + st.e + sha1K t + w) % M32
    sha1Rounds ws (t + 1) ⟨temp, st.a, rotl 30 st.b, st.c, st.d⟩

/-- Group bytes into big-endian 32-bit words. -/
def bytesToWords : List Nat → List Nat
  | b0 :: b1 :: b2 :: b3 :: rest =>
    (((b0 * 256 + b1) * 256 + b2) * 256 + b3) :: bytesToWords rest
  | _ => []

/-- Process one 64-byte block. -/
def sha1Block (st : Sha1State) (block : List Nat) : Sha1State :=
  let w := sha1Extend 64 (bytesToWords block)
  let r := sha1Rounds w 0 st
  ⟨(st.a + r.a) % M32, (st.b + r.b) % M32, (st.c + r.c) % M32,
   (st.d + r.d) % M32, (st.e + r.e) % M32⟩

/-- Big-endian byte expansion of `n` into `k` bytes. -/
def beBytes : Nat → Nat → List Nat
  | 0, _ => []
  | k + 1, n => ((n >>> (8 * k)) % 256) :: beBytes k n

/-- SHA1 padding: a 0x80 byte, zeros up to 56 mod 64, then the bit length
as 8 big-endian bytes. -/
def sha1Pad (msg : List Nat) : List Nat :=
  let padZeros := (119 - msg.length % 64) % 64
  msg ++ [128] ++ List.replicate padZeros 0 ++ beBytes 8 (msg.length * 8)

/-- Split a padded message into 64-byte blocks (fuel-driven; the fuel is
always sufficient for a padded message). -/
def splitBlocks : Nat → List Nat → List (List Nat)
  | 0, _ => []
  | _ + 1, [] => []
  | n + 1, l => l.take 64 :: splitBlocks n (l.drop 64)

/-- Lower-case hex digit for a nibble. -/
def hexDigit (n : Nat) : Char :=
  if n < 10 then Char.ofNat (48 + n) else Char.ofNat (87 + n)

/-- Eight lower-case hex digits of a 32-bit word, most significant first. -/
def wordToHex (n : Nat) : List Char :=
  [hexDigit ((n >>> 28) % 16), hexDigit ((n >>> 24) % 16),
   hexDigit ((n >>> 20) % 16), hexDigit ((n >>> 16) % 16),
   hexDigit ((n >>> 12) % 16), hexDigit ((n >>> 8) % 16),
   hexDigit ((n >>> 4) % 16), hexDigit (n % 16)]

/-- Hex SHA1 digest of a byte list. -/
def sha1Hex (msg : List Nat) : String :=
  let padded := sha1Pad msg
  let st := (splitBlocks (padded.length + 1) padded).foldl sha1Block sha1Init
  String.mk (wordToHex st.a ++ wordToHex st.b ++ wordToHex st.c ++
    wordToHex st.d ++ wordToHex st.e)

/-- Hex SHA1 digest of the UTF-8 encoding of a string: models Python
`hashlib.sha1(s.encode("utf-8")).hexdigest()`. -/
def sha1HexOfString (s : String) : String := sha1Hex (strBytes s)

/-! ### Preprocessor id derivation (src/utils/preprocess.py) -/

/-- Python values that can be passed to `make_doc_id` in this code base:
`None`, a string, or an int. -/
inductive PyVal where
  | pyNone : PyVal
  | pyStr : String → PyVal
  | pyInt : Int → PyVal
deriving DecidableEq

/-- Python truthiness of such a value (`if p` in the comprehension). -/
def PyVal.truthy : PyVal → Bool
  | .pyNone => false
  | .pyStr s => s ≠ ""
  | .pyInt n => n ≠ 0

/-- Python `str(p)` for such a value. -/
def PyVal.toStr : PyVal → String
  | .pyNone => "None"
  | .pyStr s => s
  | .pyInt n => toString n

/-- Embeds `make_doc_id(*parts)` of preprocess.py:
`hashlib.sha1("|".join(str(p) for p in parts if p).encode("utf-8")).hexdigest()`. -/
def make_doc_id (parts : List PyVal) : String :=
  sha1HexOfString (String.intercalate "|" ((parts.filter PyVal.truthy).map PyVal.toStr))

/-- Embeds `make_chunk_id(doc_id, index)` of preprocess.py:
hex SHA1 of the UTF-8 bytes of the f-string `"doc_id|index"`. -/
def make_chunk_id (doc_id : String) (index : Int) : String :=
  sha1HexOfString (doc_id ++ "|" ++ toString index)

end RagSpec

namespace RagSpec

/-! ### normalize_whitespace (src/utils/preprocess.py, lines 30-47)

Each `re.sub` of the source is embedded as one recursive pass over the
character list, with Python `re.sub` semantics: scan left to right, at each
position try the (greedy, leftmost) match; on a match emit the replacement
and continue right after the matched span of the original text; otherwise
emit the character and advance by one.  `\s` is modelled by the common
whitespace characters (space, tab, newline, carriage return, vertical tab,
form feed, no-break space). -/

/-- Whitespace class modelling Python regex `\s` on the characters this
pipeline can produce. -/
def isWs (c : Char) : Bool :=
  c == ' ' || c == '\t' || c == '\n' || c == '\r' || c == '\x0b' ||
    c == '\x0c' || c == '\xa0'

/-- Character class of the first substitution: `[ \t ]`. -/
def cls1 (c : Char) : Bool := c == ' ' || c == '\t' || c == '\xa0'

/-- Hangul syllable class `[가-힣]`. -/
def isHangul (c : Char) : Bool :=
  decide (0xAC00 ≤ c.toNat) && decide (c.toNat ≤ 0xD7A3)

/-- Parenthesis class `[()]`. -/
def parenC (c : Char) : Bool := c == '(' || c == ')'

/-- Punctuation class `[.,!?·]` of the sixth substitution. -/
def punct6 (c : Char) : Bool :=
  c == '.' || c == ',' || c == '!' || c == '?' || c == '·'

/-- Punctuation class `[.,!?·:/]` of the tenth substitution. -/
def punct10 (c : Char) : Bool :=
  c == '.' || c == ',' || c == '!' || c == '?' || c == '·' || c == ':' || c == '/'

/-- Sentence-final class `[.!?]` of the last substitution. -/
def punct13 (c : Char) : Bool := c == '.' || c == '!' || c == '?'

/-- Lookahead class `[가-힣A-Z0-9]` of the last substitution. -/
def cls13 (c : Char) : Bool := isHangul c || c.isUpper || c.isDigit

/-! Each scan is driven by a fuel argument, initialized to the length of the
list; every step consumes at least one character, so the fuel never runs
out on the initial call (the `0` case is unreachable and returns the rest
unchanged).  This keeps every pass structurally recursive and computable by
kernel reduction. -/

/-- Substitution 1 (fuelled scan): `[ \t ]+` becomes a single space. -/
def sub1Go : Nat → List Char → List Char
  | 0, l => l
  | _ + 1, [] => []
  | fuel + 1, c :: cs =>
    if cls1 c then ' ' :: sub1Go fuel (cs.dropWhile cls1) else c :: sub1Go fuel cs

/-- Substitution 1: `[ \t ]+` becomes a single space. -/
def sub1 (l : List Char) : List Char := sub1Go l.length l

/-- Substitution 2 (fuelled scan): `(\d)\n([가-힣])` becomes digit then
hangul. -/
def sub2Go : Nat → List Char → List Char
  | 0, l => l
  | _ + 1, [] => []
  | fuel + 1, a :: cs =>
    match cs with
    | '\n' :: b :: cs2 =>
      if a.isDigit && isHangul b then a :: b :: sub2Go fuel cs2
      else a :: sub2Go fuel cs
    | _ => a :: sub2Go fuel cs

/-- Substitution 2: `(\d)\n([가-힣])` becomes digit then hangul. -/
def sub2 (l : List Char) : List Char := sub2Go l.length l

/-- Substitution 3 (fuelled scan): `([가-힣])\n(\d)` becomes hangul, space,
digit. -/
def sub3Go : Nat → List Char → List Char
  | 0, l => l
  | _ + 1, [] => []
  | fuel + 1, a :: cs =>
    match cs with
    | '\n' :: b :: cs2 =>
      if isHangul a && b.isDigit then a :: ' ' :: b :: sub3Go fuel cs2
      else a :: sub3Go fuel cs
    | _ => a :: sub3Go fuel cs

/-- Substitution 3: `([가-힣])\n(\d)` becomes hangul, space, digit. -/
def sub3 (l : List Char) : List Char := sub3Go l.length l

/-- Substitution 4 (fuelled scan): `\n([()])` drops the newline before a
parenthesis. -/
def sub4Go : Nat → List Char → List Char
  | 0, l => l
  | _ + 1, [] => []
  | fuel + 1, c :: cs =>
    match c, cs with
    | '\n', p :: cs2 =>
      if parenC p then p :: sub4Go fuel cs2 else '\n' :: sub4Go fuel cs
    | _, _ => c :: sub4Go fuel cs

/-- Substitution 4: `\n([()])` drops the newline before a parenthesis. -/
def sub4 (l : List Char) : List Char := sub4Go l.length l

/-- Substitution 5 (fuelled scan): `([()])\n` drops the newline after a
parenthesis. -/
def sub5Go : Nat → List Char → List Char
  | 0, l => l
  | _ + 1, [] => []
  | fuel + 1, p :: cs =>
    match cs with
    | '\n' :: cs2 =>
      if parenC p then p :: sub5Go fuel cs2 else p :: sub5Go fuel cs
    | _ => p :: sub5Go fuel cs

/-- Substitution 5: `([()])\n` drops the newline after a parenthesis. -/
def sub5 (l : List Char) : List Char := sub5Go l.length l

/-- Substitution 6 (fuelled scan): `\n([.,!?·])` drops the newline before
the punctuation. -/
def sub6Go : Nat → List Char → List Char
  | 0, l => l
  | _ + 1, [] => []
  | fuel + 1, c :: cs =>
    match c, cs with
    | '\n', p :: cs2 =>
      if punct6 p then p :: sub6Go fuel cs2 else '\n' :: sub6Go fuel cs
    | _, _ => c :: sub6Go fuel cs

/-- Substitution 6: `\n([.,!?·])` drops the newline before the
punctuation. -/
def sub6 (l : List Char) : List Char := sub6Go l.length l

/-- Substitution 7: `(?<!\n)\n(?!\n)` (a lone newline) becomes a space.
The lookbehind inspects the previous character of the original text, so it
is threaded through as `prev`; the lookahead inspects the next character
without consuming it. -/
def sub7 (prev : Option Char) : List Char → List Char
  | [] => []
  | c :: cs =>
    if c = '\n' then
      if prev = some '\n' then '\n' :: sub7 (some '\n') cs
      else
        match cs with
        | '\n' :: _ => '\n' :: sub7 (some '\n') cs
        | _ => ' ' :: sub7 (some '\n') cs
    else c :: sub7 (some c) cs

/-- Substitution 8 (fuelled scan): `\n{2,}` becomes a single newline. -/
def sub8Go : Nat → List Char → List Char
  | 0, l => l
  | _ + 1, [] => []
  | fuel + 1, c :: cs =>
    match c, cs with
    | '\n', c2 :: cs2 =>
      if c2 = '\n' then '\n' :: sub8Go fuel (cs2.dropWhile (· == '\n'))
      else '\n' :: sub8Go fuel cs
    | _, _ => c :: sub8Go fuel cs

/-- Substitution 8: `\n{2,}` becomes a single newline. -/
def sub8 (l : List Char) : List Char := sub8Go l.length l

/-- Substitution 9 (fuelled scan): `\s*([()])\s*` becomes just the
parenthesis (whitespace around parentheses removed). -/
def sub9Go : Nat → List Char → List Char
  | 0, l => l
  | _ + 1, [] => []
  | fuel + 1, c :: cs =>
    if parenC c then c :: sub9Go fuel (cs.dropWhile isWs)
    else if isWs c then
      match cs.dropWhile isWs with
      | p :: rest =>
        if parenC p then p :: sub9Go fuel (rest.dropWhile isWs)
        else c :: sub9Go fuel cs
      | [] => c :: sub9Go fuel cs
    else c :: sub9Go fuel cs

/-- Substitution 9: `\s*([()])\s*` becomes just the parenthesis. -/
def sub9 (l : List Char) : List Char := sub9Go l.length l

/-- Substitution 10 (fuelled scan): `\s*([.,!?·:/])\s*` becomes the
punctuation followed by one space. -/
def sub10Go : Nat → List Char → List Char
  | 0, l => l
  | _ + 1, [] => []
  | fuel + 1, c :: cs =>
    if punct10 c then c :: ' ' :: sub10Go fuel (cs.dropWhile isWs)
    else if isWs c then
      match cs.dropWhile isWs with
      | p :: rest =>
        if punct10 p then p :: ' ' :: sub10Go fuel (rest.dropWhile isWs)
        else c :: sub10Go fuel cs
      | [] => c :: sub10Go fuel cs
    else c :: sub10Go fuel cs

/-- Substitution 10: `\s*([.,!?·:/])\s*` becomes the punctuation followed
by one space. -/
def sub10 (l : List Char) : List Char := sub10Go l.length l

/-- Substitution 11 (fuelled scan): `\s{2,}` becomes a single space. -/
def sub11Go : Nat → List Char → List Char
  | 0, l => l
  | _ + 1, [] => []
  | fuel + 1, c1 :: cs =>
    match cs with
    | c2 :: cs2 =>
      if isWs c1 && isWs c2 then ' ' :: sub11Go fuel (cs2.dropWhile isWs)
      else c1 :: sub11Go fuel cs
    | [] => [c1]

/-- Substitution 11: `\s{2,}` becomes a single space. -/
def sub11 (l : List Char) : List Char := sub11Go l.length l

/-- Substitution 12 (fuelled scan): `\s+'|'\s+` becomes a single
apostrophe. -/
def sub12Go : Nat → List Char → List Char
  | 0, l => l
  | _ + 1, [] => []
  | fuel + 1, c :: cs =>
    if isWs c then
      match cs.dropWhile isWs with
      | q :: rest =>
        if q = '\'' then '\'' :: sub12Go fuel rest
        else c :: sub12Go fuel cs
      | [] => c :: sub12Go fuel cs
    else if c = '\'' then
      match cs with
      | d :: ds =>
        if isWs d then '\'' :: sub12Go fuel (ds.dropWhile isWs)
        else c :: sub12Go fuel cs
      | [] => [c]
    else c :: sub12Go fuel cs

/-- Substitution 12: `\s+'|'\s+` becomes a single apostrophe. -/
def sub12 (l : List Char) : List Char := sub12Go l.length l

/-- Substitution 13 (fuelled scan): `([.!?])\s+(?=[가-힣A-Z0-9])` becomes
the punctuation followed by a newline; the lookahead character is not
consumed, so scanning continues at it. -/
def sub13Go : Nat → List Char → List Char
  | 0, l => l
  | _ + 1, [] => []
  | fuel + 1, q :: cs =>
    if punct13 q then
      match cs with
      | d :: ds =>
        if isWs d then
          match ds.dropWhile isWs with
          | n :: rest =>
            if cls13 n then q :: '\n' :: sub13Go fuel (n :: rest)
            else q :: sub13Go fuel cs
          | [] => q :: sub13Go fuel cs
        else q :: sub13Go fuel cs
      | [] => [q]
    else q :: sub13Go fuel cs

/-- Substitution 13: `([.!?])\s+(?=[가-힣A-Z0-9])` becomes the punctuation
followed by a newline. -/
def sub13 (l : List Char) : List Char := sub13Go l.length l

/-- Python `str.strip()` over the modelled whitespace class. -/
def pyStrip (l : List Char) : List Char :=
  ((l.dropWhile isWs).reverse.dropWhile isWs).reverse

/-- Embeds `normalize_whitespace` of preprocess.py: the thirteen
substitutions applied in source order, then `strip()`.  A non-string input
returns the empty string in the source; the embedding takes the string
case. -/
def normalize_whitespace (l : List Char) : List Char :=
  pyStrip (sub13 (sub12 (sub11 (sub10 (sub9 (sub8 (sub7 none
    (sub6 (sub5 (sub4 (sub3 (sub2 (sub1 l)))))))))))))

end RagSpec
namespace RagSpec

/-! ### chunk_text (src/utils/preprocess.py, lines 113-127) -/

/-- The windowing loop of `chunk_text`:
`for start in range(0, len(text), step)` emitting `text[start : start+size]`
and breaking as soon as `start + size >= len(text)`.  The step is passed as
`stepPred + 1` since the source guarantees `step = max(1, size - overlap)`
is at least 1; this keeps the recursion structural on the remaining
length via fuel. -/
def chunkTextLoop : Nat → List Char → Nat → Nat → Nat → List (List Char)
  | 0, _, _, _, _ => []
  | fuel + 1, t, size, stepPred, start =>
    if start < t.length then
      let segment := (t.drop start).take size
      if t.length ≤ start + size then [segment]
      else segment :: chunkTextLoop fuel t size stepPred (start + stepPred + 1)
    else []

/-- Embeds `chunk_text(text, size, overlap)` of preprocess.py: return `[]`
for empty input, normalize whitespace, return `[]` if the normalized text
is empty, else run the window loop with `step = max(1, size - overlap)`.
Sizes are modelled as naturals (the configured chunk sizes are
non-negative ints). -/
def chunk_text (text : List Char) (size overlap : Nat) : List (List Char) :=
  if text = [] then []
  else
    let t := normalize_whitespace text
    if t = [] then []
    else
      let step := max 1 (size - overlap)
      chunkTextLoop (t.length + 1) t size (step - 1) 0

/-- Stated from the claim, not from the source: the loop producing the
window list `[text[0..size], text[step..step+size], ...]` over a text,
terminating exactly when a window reaches the end of the text. -/
def claimWindowsGo : Nat → List Char → Nat → Nat → Nat → List (List Char)
  | 0, _, _, _, _ => []
  | fuel + 1, t, size, step, start =>
    if start < t.length then
      let w := (t.drop start).take size
      if start + size ≥ t.length then [w]
      else w :: claimWindowsGo fuel t size step (start + step)
    else []

/-- Stated from the claim: the window list
`[text[0..size], text[step..step+size], ...]` over the given text itself,
with windows starting at multiples of `step`, terminating when a window
reaches the end of the text.  This is the comparison point for the claim
about `chunk_text`; it is not translated from the source.  (The fuel
suffices whenever `step ≥ 1`, which holds for the claim's
`step = max(1, size - overlap)`.) -/
def claimWindows (t : List Char) (size step : Nat) : List (List Char) :=
  claimWindowsGo (t.length + 1) t size step 0

end RagSpec

namespace RagSpec

/-! ### Hybrid retrieval fusion (src/search/hybrid.py, hybrid_search)

The external calls (Chroma dense query, embedding encoding, TF-IDF cosine
similarities) are modelled by their results, passed in as parameters:
`vecIds`/`vecDists` are the parallel id and distance arrays returned by the
vector collection for the filtered dense query, and `sparseSims` is the
row-wise cosine-similarity array against the sparse matrix (parallel to
the in-memory chunk table `chunkIds`).  Python dicts keyed by `chunk_id`
are association lists with insert-overwrite; Python set iteration order is
unspecified, and the embedding fixes one concrete enumeration of the
candidate set (dense keys first). -/

/-- Insertion into a sorted list under a Boolean relation (used to model
the library sorts; both `np.argsort` and Python `list.sort` tie orders
are not observable in the claims, so any correct sort is a faithful
model). -/
def insertBy (le : α → α → Bool) (a : α) : List α → List α
  | [] => [a]
  | b :: bs => if le a b then a :: b :: bs else b :: insertBy le a bs

/-- Insertion sort under a Boolean relation. -/
def sortBy (le : α → α → Bool) : List α → List α
  | [] => []
  | a :: rest => insertBy le a (sortBy le rest)

/-- Insert with overwrite, modelling Python dict assignment: an existing
binding of the key is overwritten in place, otherwise the binding is
appended. -/
def dictInsert (m : List (String × ℚ)) (k : String) (v : ℚ) : List (String × ℚ) :=
  match m with
  | [] => [(k, v)]
  | p :: rest => if p.1 = k then (k, v) :: rest else p :: dictInsert rest k v

/-- Lookup with default, modelling Python `dict.get(k, d)`. -/
def dictGet (m : List (String × ℚ)) (k : String) (d : ℚ) : ℚ :=
  match m with
  | [] => d
  | p :: rest => if p.1 = k then p.2 else dictGet rest k d

/-- The keys of such a dict. -/
def dictKeys (m : List (String × ℚ)) : List String := m.map (·.1)

/-- Embeds `vec_scores = {cid: (1 - dist) for cid, dist in zip(vec_ids, vec_dists)}`. -/
def vecScores (ids : List String) (dists : List ℚ) : List (String × ℚ) :=
  (ids.zip dists).foldl (fun m p => dictInsert m p.1 (1 - p.2)) []

/-- Embeds `np.argsort(sims)[::-1]`: indices sorted ascending by value
(stable, so equal values keep ascending index order), then reversed. -/
def argsortDesc (sims : List ℚ) : List Nat :=
  (sortBy (fun i j => decide (sims.getD i 0 ≤ sims.getD j 0))
    (List.range sims.length)).reverse

/-- Embeds the sparse-score loop of `hybrid_search`: walk the top `limit`
indices of the similarity array, skip indices beyond the chunk table,
keep strictly positive scores keyed by the chunk id of that row. -/
def sparseScores (chunkIds : List String) (sims : List ℚ) (limit : Nat) :
    List (String × ℚ) :=
  ((argsortDesc sims).take limit).foldl
    (fun m idx =>
      if chunkIds.length ≤ idx then m
      else if 0 < sims.getD idx 0 then
        dictInsert m (chunkIds.getD idx "") (sims.getD idx 0)
      else m) []

/-- Embeds the candidate-set choice of `hybrid_search`: with a metadata
filter, only the dense result ids; otherwise the union of dense and
sparse ids (enumerated dense first). -/
def hybridCandidates (vec sparse : List (String × ℚ)) (hasFilter : Bool) :
    List String :=
  if hasFilter then dictKeys vec
  else dictKeys vec ++ (dictKeys sparse).filter (fun k => !(dictKeys vec).contains k)

/-- Embeds the fusion loop: every candidate is scored
`alpha * v_score + (1 - alpha) * s_score` with missing scores defaulting
to 0. -/
def hybridScored (vec sparse : List (String × ℚ)) (alpha : ℚ)
    (cands : List String) : List (String × ℚ) :=
  cands.map (fun cid =>
    (cid, alpha * dictGet vec cid 0 + (1 - alpha) * dictGet sparse cid 0))

/-- Embeds `hybrid_results.sort(key=score, reverse=True)[:top_k]`. -/
def hybridTop (scored : List (String × ℚ)) (top_k : Nat) : List (String × ℚ) :=
  (sortBy (fun a b => decide (b.2 ≤ a.2)) scored).take top_k

/-- Embeds `hybrid_search` at the level of chunk ids and scores: empty
chunk table returns empty; otherwise dense and sparse score dicts are
built (`limit = top_k * 3`), candidates chosen, scored, sorted descending
and truncated; finally ids absent from the chunk table are dropped and the
retained rows are paired with the leading scores (exactly as the source
assigns `top_scores[:len(valid_ids)]`). -/
def hybrid_search (chunkIds : List String) (vecIds : List String)
    (vecDists : List ℚ) (sparseSims : List ℚ) (top_k : Nat) (alpha : ℚ)
    (hasFilter : Bool) : List (String × ℚ) :=
  if chunkIds.isEmpty then []
  else
    let limit := top_k * 3
    let vec := vecScores vecIds vecDists
    let sparse := sparseScores chunkIds sparseSims limit
    let top := hybridTop (hybridScored vec sparse alpha (hybridCandidates vec sparse hasFilter)) top_k
    let validIds := (top.map (·.1)).filter (fun cid => chunkIds.contains cid)
    validIds.zip (top.map (·.2))

/-! ### Date post-filter of /ask (api/rag_service.py, lines 541-560) -/

/-- Parses a canonical `YYYY-MM-DD` date string to the order-preserving
code `y * 10000 + m * 100 + d`.  Models `pd.to_datetime(-, errors="coerce")`
on the canonical date strings this pipeline stores (invariant: metadata
dates are empty or canonical); anything else coerces to `NaT`, i.e.
`none`. -/
def parseCanonicalDate (s : String) : Option Nat :=
  match s.data with
  | [y1, y2, y3, y4, '-', m1, m2, '-', d1, d2] =>
    if y1.isDigit && y2.isDigit && y3.isDigit && y4.isDigit &&
        m1.isDigit && m2.isDigit && d1.isDigit && d2.isDigit then
      let y := ((y1.toNat - 48) * 10 + (y2.toNat - 48)) * 100 +
        (y3.toNat - 48) * 10 + (y4.toNat - 48)
      let m := (m1.toNat - 48) * 10 + (m2.toNat - 48)
      let d := (d1.toNat - 48) * 10 + (d2.toNat - 48)
      if 1 ≤ m && m ≤ 12 && 1 ≤ d && d ≤ 31 then
        some (y * 10000 + m * 100 + d)
      else none
    else none
  | _ => none

/-- A retrieved row as seen by the date post-filter: its `published_at`
column (always present after `hybrid_search_with_meta`) and its text. -/
structure Hit where
  published_at : String
  chunk_text : String
deriving DecidableEq

/-- Embeds the date post-filter of `/ask`: when a date range was parsed,
the hit set is non-empty and the dataset is notices, schedule or rules,
keep exactly the rows whose `published_at` coerces to a date within
`[a, b]`; rows whose date cannot be parsed (`NaT`) are dropped.  Otherwise
the hits pass through unchanged. -/
def ask_date_filter (dataset : String) (dateRange : Option (Nat × Nat))
    (hits : List Hit) : List Hit :=
  match dateRange with
  | some (a, b) =>
    if !hits.isEmpty && (dataset == "notices" || dataset == "schedule" || dataset == "rules") then
      hits.filter (fun h =>
        match parseCanonicalDate h.published_at with
        | some d => decide (a ≤ d) && decide (d ≤ b)
        | none => false)
    else hits
  | none => hits

/-! ### Cross-corpus re-ranking (api/rag_service.py, lines 574-617)

A merged row is modelled by its `hybrid_score` and its coerced `sort_date`
(`none` models `NaT`); timestamps and scores are rationals. -/

/-- A merged result row entering the re-ranker. -/
structure RankRow where
  hybrid_score : ℚ
  sort_date : Option ℚ
deriving DecidableEq

/-- Minimum of a list of rationals (the source only takes minima of
non-empty columns; the empty case is unreachable there). -/
def listMin : List ℚ → ℚ
  | [] => 0
  | x :: xs => xs.foldl min x

/-- Maximum of a list of rationals. -/
def listMax : List ℚ → ℚ
  | [] => 0
  | x :: xs => xs.foldl max x

/-- The `hybrid_score` column. -/
def hybridCol (rows : List RankRow) : List ℚ := rows.map (·.hybrid_score)

/-- Embeds `norm_hybrid`: min-max normalization of `hybrid_score`, defined
as 1.0 when the column maximum does not exceed its minimum. -/
def norm_hybrid (rows : List RankRow) (r : RankRow) : ℚ :=
  let mn := listMin (hybridCol rows)
  let mx := listMax (hybridCol rows)
  if mn < mx then (r.hybrid_score - mn) / (mx - mn) else 1

/-- The non-missing dates of the merged frame (`merged["sort_date"].dropna()`). -/
def validDates (rows : List RankRow) : List ℚ := rows.filterMap (·.sort_date)

/-- Embeds `sort_timestamp`: the row's date, with missing dates filled by
the minimum valid date. -/
def sortTimestamp (rows : List RankRow) (r : RankRow) : ℚ :=
  r.sort_date.getD (listMin (validDates rows))

/-- Embeds `norm_recency`: 0.0 when no row has a date; otherwise min-max
normalization of `sort_timestamp` over the valid dates, defined as 1.0
when the maximum does not exceed the minimum. -/
def norm_recency (rows : List RankRow) (r : RankRow) : ℚ :=
  if validDates rows = [] then 0
  else
    let mn := listMin (validDates rows)
    let mx := listMax (validDates rows)
    if mn < mx then (sortTimestamp rows r - mn) / (mx - mn) else 1

/-- Embeds `final_score = (1 - RECENCY_WEIGHT) * norm_hybrid +
RECENCY_WEIGHT * norm_recency`. -/
def final_score (W : ℚ) (rows : List RankRow) (r : RankRow) : ℚ :=
  (1 - W) * norm_hybrid rows r + W * norm_recency rows r

/-- The configured default `RECENCY_WEIGHT = 0.4` of src/config.py. -/
def RECENCY_WEIGHT : ℚ := 2/5

/-! ### Admin approval (api/rag_service.py, approve_pending)

The three payload shapes are modelled with `Option String` fields (`none`
is an absent or null JSON field); `data.get(k, default)` is `getD`. -/

/-- Lift an optional string to the Python value passed to `make_doc_id`. -/
def optPy : Option String → PyVal
  | some s => .pyStr s
  | none => .pyNone

/-- Payload of an `announcement` admin item. -/
structure AnnouncementData where
  title : Option String
  content : Option String
  date : Option String
  department : Option String
  category : Option String
deriving DecidableEq

/-- The notice board chosen by the announcement branch:
`data.get("department", "공지사항")`. -/
def announcement_board (d : AnnouncementData) : String :=
  d.department.getD "공지사항"

/-- Embeds the chunk-id derivation of the announcement branch (line 399):
`make_doc_id(notice.title, notice.board, notice.published_date)`. -/
def announcement_chunk_id (d : AnnouncementData) : String :=
  make_doc_id [optPy d.title, .pyStr (announcement_board d), optPy d.date]

/-- The chunk id stored by `approve_pending` for an announcement, given
the chunk ids already present in the store.  The source derives the id
from the payload alone (lines 398-417): it never consults existing ids
and contains no collision handling, so the parameter is unused. -/
def approve_announcement_chunk_id (existingChunkIds : List String)
    (d : AnnouncementData) : String :=
  announcement_chunk_id d

/-- Payload of an `event` admin item. -/
structure EventData where
  title : Option String
  description : Option String
  start_date : Option String
  end_date : Option String
  department : Option String
  location : Option String
deriving DecidableEq

/-- Payload of a `custom_knowledge` admin item.  The branch slices
`ck.question[:20]`, which requires the question to be a string; a missing
question aborts the approval with an error, so the modelled happy path
carries a string. -/
structure CustomKnowledgeData where
  question : String
  answer : Option String
  category : Option String
deriving DecidableEq

/-- What an approval writes: which relational source table receives the
new record, the category stored on it, the derived chunk id, the vector
collection upserted, and the metadata attached to the upsert. -/
structure ApproveOutcome where
  recordTable : String
  recordCategory : Option String
  chunkId : String
  collectionName : String
  metaSource : String
  metaCategory : String
  metaPublishedAt : Option String
deriving DecidableEq

/-- Python string slice `s[:20]`. -/
def pyTake20 (s : String) : String := String.mk (s.data.take 20)

/-- Embeds the `event` branch of `approve_pending` (lines 304-379): a
`Schedule` record with category 학과행사, chunk id
`make_doc_id("schedule", start_date, end_date, description)`, upsert into
the `dongguk_schedule` collection with `published_at = start_date`
(null fields written as empty strings). -/
def approve_event (d : EventData) : ApproveOutcome where
  recordTable := "schedule"
  recordCategory := some "학과행사"
  chunkId := make_doc_id [.pyStr "schedule", optPy d.start_date, optPy d.end_date, optPy d.description]
  collectionName := "dongguk_schedule"
  metaSource := "schedule"
  metaCategory := "학과행사"
  metaPublishedAt := some (d.start_date.getD "")

/-- Embeds the `custom_knowledge` branch of `approve_pending` (lines
235-302): a `CustomKnowledge` record carrying the submitted category,
chunk id `make_doc_id("custom_knowledge", str(ck.id), ck.question[:20])`,
upsert into the `dongguk_notices` collection with metadata
`category = ck.category or ""` and no `published_at` key. -/
def approve_custom_knowledge (ckId : Int) (d : CustomKnowledgeData) : ApproveOutcome where
  recordTable := "custom_knowledge"
  recordCategory := d.category
  chunkId := make_doc_id [.pyStr "custom_knowledge", .pyStr (toString ckId), .pyStr (pyTake20 d.question)]
  collectionName := "dongguk_notices"
  metaSource := "custom_knowledge"
  metaCategory := d.category.getD ""
  metaPublishedAt := none

/-! ### Incremental sync (src/pipelines/sync.py) and TF-IDF training
(src/search/hybrid.py, train_tfidf)

`TfidfVectorizer` is an external library; its default analyzer is
modelled from its documented behaviour: lower-case the text, tokens are
maximal runs of word characters of length at least two, and
`max_features=10000` caps the vocabulary (modelled as a take on the
deduplicated token list, which is the identity whenever there are at most
10000 distinct terms). -/

/-- Word characters for tokenization (`\w`): alphanumeric, underscore, or
hangul. -/
def isWordChar (c : Char) : Bool :=
  c.isAlphanum || c == '_' || isHangul c

/-- Splits a character list into maximal word-character runs. -/
def wordsGo (cur : List Char) : List Char → List (List Char)
  | [] => if cur.isEmpty then [] else [cur.reverse]
  | c :: cs =>
    if isWordChar c then wordsGo (c :: cur) cs
    else if cur.isEmpty then wordsGo [] cs
    else cur.reverse :: wordsGo [] cs

/-- Tokenizer modelling the default `TfidfVectorizer` analyzer. -/
def tokenize (s : String) : List String :=
  ((wordsGo [] (s.data.map Char.toLower)).filter (fun w => 2 ≤ w.length)).map
    (fun w => String.mk w)

/-- All tokens of a corpus, in order. -/
def corpusTokens (texts : List String) : List String :=
  texts.foldr (fun t acc => tokenize t ++ acc) []

/-- Deduplication keeping first occurrences. -/
def dedupFirstGo (seen : List String) : List String → List String
  | [] => []
  | x :: xs =>
    if seen.contains x then dedupFirstGo seen xs
    else x :: dedupFirstGo (x :: seen) xs

/-- Deduplication keeping first occurrences, from the empty seen set. -/
def dedupFirst (l : List String) : List String := dedupFirstGo [] l

/-- The vocabulary learned by fitting the vectorizer on a corpus. -/
def fitVocabulary (texts : List String) : List String :=
  (dedupFirst (corpusTokens texts)).take 10000

/-- Embeds `train_tfidf`: raises on an empty corpus (`none`), otherwise
fits a fresh vectorizer whose vocabulary is learned from the given
corpus. -/
def train_tfidf (corpus : List String) : Option (List String) :=
  if corpus.isEmpty then none else some (fitVocabulary corpus)

/-- A chunk row as handled by `sync_dataset` (chunk id and text). -/
structure SyncChunk where
  chunk_id : String
  chunk_text : String
deriving DecidableEq

/-- The new rows not already present, by chunk id
(`new_chunks[~new_chunks["chunk_id"].isin(existing_chunks["chunk_id"])]`). -/
def sync_filtered_new (existing newChunks : List SyncChunk) : List SyncChunk :=
  newChunks.filter (fun c => !(existing.map (·.chunk_id)).contains c.chunk_id)

/-- Embeds `combined.drop_duplicates(subset=["chunk_id"])` (keep first). -/
def dropDupChunksGo (seen : List String) : List SyncChunk → List SyncChunk
  | [] => []
  | c :: cs =>
    if seen.contains c.chunk_id then dropDupChunksGo seen cs
    else c :: dropDupChunksGo (c.chunk_id :: seen) cs

/-- The on-disk outcome of `sync_dataset`: the persisted chunk table, the
number of added rows, and the corpus the TF-IDF model was refit on
(`none` when the early returns fire and the model files are untouched). -/
structure SyncResult where
  chunks : List SyncChunk
  added : Nat
  retrainedCorpus : Option (List String)
deriving DecidableEq

/-- Embeds `sync_dataset` (lines 56-94), with the per-corpus builder
output passed in as `newChunks`: empty builder output or no genuinely new
chunk ids return early with count 0; otherwise the deduplicated
concatenation is persisted, the new rows are appended to Chroma, and
`train_tfidf` is called on the texts of the whole combined table. -/
def sync_dataset (existing newChunks : List SyncChunk) : SyncResult :=
  if newChunks.isEmpty then ⟨existing, 0, none⟩
  else
    let filteredNew := sync_filtered_new existing newChunks
    if filteredNew.isEmpty then ⟨existing, 0, none⟩
    else
      let combined := dropDupChunksGo [] (existing ++ filteredNew)
      ⟨combined, filteredNew.length, some (combined.map (·.chunk_text))⟩

/-! ### Router (src/services/router.py)

`ROUTER_RULES` is the only definition of that name in the repository
(settings.py).  The classifier is external; `route_query` is parameterized
by its output on the query (`none` models both an absent model and the
exception fallback, which take the same `_keyword_route` path). -/

/-- The keyword routing rules (settings.py, `ROUTER_RULES`). -/
def ROUTER_RULES : List (String × List String) :=
  [("notices", ["공지", "알림", "모집", "합격", "발표", "마감", "장학", "등록금", "휴학", "복학", "입시", "공지사항"]),
   ("rules", ["학칙", "규정", "규정집", "조항", "조", "항", "시행세칙", "학사 규정"]),
   ("schedule", ["학사일정", "일정", "수강신청", "개강", "종강", "성적", "등록", "휴학기간", "방학"]),
   ("courses", ["과목", "강좌", "교과목", "수업", "전공", "선수과목", "학점", "이수구분", "통계학과"])]

/-- The corpus keys the spec names as the known corpus set. -/
def knownCorpora : List String := ["notices", "rules", "schedule", "courses", "staff"]

/-- Python `str.lower()` (ASCII case folding; the keywords are hangul and
unaffected). -/
def pyLower (s : String) : String := String.mk (s.data.map Char.toLower)

/-- Does `needle` occur at the head of `hay`? -/
def startsWithSeq : List Char → List Char → Bool
  | [], _ => true
  | _ :: _, [] => false
  | a :: as, b :: bs => a == b && startsWithSeq as bs

/-- Python substring test `needle in hay`. -/
def containsSeq (needle hay : List Char) : Bool :=
  match hay with
  | [] => needle.isEmpty
  | _ :: t => startsWithSeq needle hay || containsSeq needle t

/-- Embeds `_keyword_route` (router.py, lines 20-27): the datasets one of
whose keywords occurs in the lowered query, else `["notices"]`. -/
def keyword_route (query : String) : List String :=
  let lowered := pyLower query
  let hits := (ROUTER_RULES.filter
    (fun r => r.2.any (fun kw => containsSeq (pyLower kw).data lowered.data))).map (·.1)
  if hits.isEmpty then ["notices"] else hits

/-- The classifier output on a query: class probabilities and the parallel
class labels (`model.named_steps["clf"].classes_`). -/
structure RouterModelOutput where
  probabilities : List ℚ
  classes : List String

/-- Embeds `route_query` (router.py, lines 42-90) with the defaults
`min_probability = 0.25`, `max_candidates = 2`: strip the query (empty
routes to `["notices"]`); without a model, or when inference fails, fall
back to `_keyword_route`; otherwise take the two highest-probability
classes (the second kept only above the probability thresholds), filter
to known rule keys without duplicates, and fall back to `_keyword_route`
whenever an intermediate list is empty. -/
def route_query (query : String) (model : Option RouterModelOutput) : List String :=
  let q := pyStrip query.data
  if q.isEmpty then ["notices"]
  else
    let stripped : String := String.mk q
    match model with
    | none => keyword_route stripped
    | some out =>
      let order := argsortDesc out.probabilities
      match order with
      | [] => keyword_route stripped
      | topIdx :: _ =>
        let topProb := out.probabilities.getD topIdx 0
        let selected := (order.take 2).foldl (fun acc idx =>
          let label := out.classes.getD idx ""
          let prob := out.probabilities.getD idx 0
          if acc.isEmpty then acc ++ [label]
          else if 1/4 ≤ prob ∨ topProb * (3/5) ≤ prob then acc ++ [label]
          else acc) []
        let selected2 := if selected.isEmpty then keyword_route stripped else selected
        let unique := selected2.foldl (fun acc label =>
          if (ROUTER_RULES.map (·.1)).contains label && !acc.contains label
          then acc ++ [label] else acc) []
        if unique.isEmpty then keyword_route stripped else unique

end RagSpec

namespace RagSpec

set_option maxRecDepth 100000

/-! ### Helper lemmas -/

theorem mem_insertBy {le : α → α → Bool} {a x : α} {l : List α} :
    x ∈ insertBy le a l ↔ x = a ∨ x ∈ l := by
  induction l with
  | nil => simp [insertBy]
  | cons b bs ih =>
    simp only [insertBy]
    split
    · simp [List.mem_cons]
    · simp only [List.mem_cons, ih]
      tauto

theorem mem_sortBy {le : α → α → Bool} {x : α} {l : List α} :
    x ∈ sortBy le l ↔ x ∈ l := by
  induction l with
  | nil => simp [sortBy]
  | cons a rest ih => simp [sortBy, mem_insertBy, ih]

theorem pairwise_insertBy {le : α → α → Bool}
    (htrans : ∀ a b c, le a b = true → le b c = true → le a c = true)
    (htot : ∀ a b, le a b = true ∨ le b a = true)
    (a : α) (l : List α) (h : l.Pairwise fun x y => le x y = true) :
    (insertBy le a l).Pairwise fun x y => le x y = true := by
  induction l with
  | nil => simp [insertBy]
  | cons b bs ih =>
    rw [List.pairwise_cons] at h
    simp only [insertBy]
    split
    · rename_i hab
      rw [List.pairwise_cons]
      refine ⟨?_, List.pairwise_cons.mpr h⟩
      intro x hx
      rcases List.mem_cons.mp hx with hxb | hxs
      · exact hxb ▸ hab
      · exact htrans a b x hab (h.1 x hxs)
    · rename_i hab
      rw [List.pairwise_cons]
      refine ⟨?_, ih h.2⟩
      intro x hx
      rcases mem_insertBy.mp hx with hxa | hxs
      · rw [hxa]
        rcases htot a b with h1 | h1
        · exact absurd h1 hab
        · exact h1
      · exact h.1 x hxs

theorem pairwise_sortBy {le : α → α → Bool}
    (htrans : ∀ a b c, le a b = true → le b c = true → le a c = true)
    (htot : ∀ a b, le a b = true ∨ le b a = true) (l : List α) :
    (sortBy le l).Pairwise fun x y => le x y = true := by
  induction l with
  | nil => simp [sortBy]
  | cons a rest ih => exact pairwise_insertBy htrans htot a _ ih

theorem foldl_min_le_init (l : List ℚ) (a : ℚ) : l.foldl min a ≤ a := by
  induction l generalizing a with
  | nil => simp
  | cons x xs ih =>
    simp only [List.foldl_cons]
    exact le_trans (ih (min a x)) (min_le_left a x)

theorem foldl_min_le_of_mem {x : ℚ} {l : List ℚ} (a : ℚ) (hx : x ∈ l) :
    l.foldl min a ≤ x := by
  induction l generalizing a with
  | nil => cases hx
  | cons y ys ih =>
    simp only [List.foldl_cons]
    rcases List.mem_cons.mp hx with h | h
    · subst h
      exact le_trans (foldl_min_le_init ys (min a x)) (min_le_right a x)
    · exact ih (min a y) h

theorem listMin_le_of_mem {x : ℚ} {l : List ℚ} (hx : x ∈ l) : listMin l ≤ x := by
  cases l with
  | nil => cases hx
  | cons y ys =>
    simp only [listMin]
    rcases List.mem_cons.mp hx with h | h
    · subst h
      exact foldl_min_le_init ys x
    · exact foldl_min_le_of_mem y h

theorem init_le_foldl_max (l : List ℚ) (a : ℚ) : a ≤ l.foldl max a := by
  induction l generalizing a with
  | nil => simp
  | cons x xs ih =>
    simp only [List.foldl_cons]
    exact le_trans (le_max_left a x) (ih (max a x))

theorem mem_le_foldl_max {x : ℚ} {l : List ℚ} (a : ℚ) (hx : x ∈ l) :
    x ≤ l.foldl max a := by
  induction l generalizing a with
  | nil => cases hx
  | cons y ys ih =>
    simp only [List.foldl_cons]
    rcases List.mem_cons.mp hx with h | h
    · subst h
      exact le_trans (le_max_right a x) (init_le_foldl_max ys (max a x))
    · exact ih (max a y) h

theorem le_listMax_of_mem {x : ℚ} {l : List ℚ} (hx : x ∈ l) : x ≤ listMax l := by
  cases l with
  | nil => cases hx
  | cons y ys =>
    simp only [listMax]
    rcases List.mem_cons.mp hx with h | h
    · subst h
      exact init_le_foldl_max ys x
    · exact mem_le_foldl_max y h

end RagSpec
namespace RagSpec

set_option maxRecDepth 200000

/-- C2: `make_doc_id` and `make_chunk_id` are pure deterministic functions:
`make_doc_id(parts)` is the hex SHA1 of the `|`-join of the truthy parts
and `make_chunk_id(doc_id, i)` is the hex SHA1 of `"doc_id|i"`; equal
inputs give equal ids, so re-ingesting the same source yields byte-identical
chunk ids.  The concrete digests are checked against reference SHA1
values. -/
theorem make_ids_deterministic_sha1 :
    (∀ parts : List PyVal, make_doc_id parts =
      sha1HexOfString (String.intercalate "|" ((parts.filter PyVal.truthy).map PyVal.toStr))) ∧
    (∀ (d : String) (i : Int), make_chunk_id d i = sha1HexOfString (d ++ "|" ++ toString i)) ∧
    (∀ parts parts' : List PyVal, parts = parts' → make_doc_id parts = make_doc_id parts') ∧
    (∀ (d d' : String) (i i' : Int), d = d' → i = i' → make_chunk_id d i = make_chunk_id d' i') ∧
    make_doc_id [.pyStr "T", .pyStr "X", .pyStr "2025-11-10"] =
      "26b934be79b8375772537d1b5eff84d24c974be3" ∧
    make_chunk_id "26b934be79b8375772537d1b5eff84d24c974be3" 0 =
      "d5098ac266b0e57c762119cd7e9ce81a3e442d8e" := by
  refine ⟨fun _ => rfl, fun _ _ => rfl, ?_, ?_, by decide, by decide⟩
  · intro parts parts' h
    rw [h]
  · intro d d' i i' hd hi
    rw [hd, hi]

/-- C2 witness: the determinism components applied at concrete inputs. -/
theorem make_ids_deterministic_sha1_witness :
    make_doc_id [.pyStr "T", .pyStr "X", .pyStr "2025-11-10"] =
      make_doc_id [.pyStr "T", .pyStr "X", .pyStr "2025-11-10"] ∧
    make_chunk_id "d" 3 = make_chunk_id "d" 3 :=
  ⟨make_ids_deterministic_sha1.2.2.1 _ _ rfl,
   make_ids_deterministic_sha1.2.2.2.1 "d" "d" 3 3 rfl rfl⟩

/-- C3 counterexample: approving a second announcement with the same
title, board and date derives exactly the same chunk id as the first (the
source consults no existing ids), and that id has the 40 hex characters of
a bare SHA1 digest, not the claimed `H_{8 hex}` collision-broken form,
whose length would be 49. -/
theorem approve_collision_suffix_counterexample :
    approve_announcement_chunk_id
        [announcement_chunk_id ⟨some "T", some "C", some "2025-11-10", some "X", some "일반"⟩]
        ⟨some "T", some "C", some "2025-11-10", some "X", some "일반"⟩ =
      announcement_chunk_id ⟨some "T", some "C", some "2025-11-10", some "X", some "일반"⟩ ∧
    (announcement_chunk_id ⟨some "T", some "C", some "2025-11-10", some "X", some "일반"⟩).length = 40 ∧
    ¬ ∃ suffix : String, suffix.length = 8 ∧
      approve_announcement_chunk_id
          [announcement_chunk_id ⟨some "T", some "C", some "2025-11-10", some "X", some "일반"⟩]
          ⟨some "T", some "C", some "2025-11-10", some "X", some "일반"⟩ =
        announcement_chunk_id ⟨some "T", some "C", some "2025-11-10", some "X", some "일반"⟩ ++
          "_" ++ suffix := by
  refine ⟨rfl, by decide, ?_⟩
  rintro ⟨suffix, hlen, heq⟩
  have hlg := congrArg String.length heq
  have h40 : (announcement_chunk_id ⟨some "T", some "C", some "2025-11-10", some "X", some "일반"⟩).length = 40 := by
    decide
  rw [show approve_announcement_chunk_id
        [announcement_chunk_id ⟨some "T", some "C", some "2025-11-10", some "X", some "일반"⟩]
        ⟨some "T", some "C", some "2025-11-10", some "X", some "일반"⟩ =
      announcement_chunk_id ⟨some "T", some "C", some "2025-11-10", some "X", some "일반"⟩ from rfl] at hlg
  simp only [String.length_append, h40, hlen] at hlg
  omega

/-- C3 amended: `approve` derives an announcement chunk id as
`make_doc_id(title, board, date)` with the board defaulting to 공지사항,
the derivation never consults the existing chunk ids and applies no
collision-breaking suffix, so approving two items with equal title, board
and date derives the identical id; on the scenario payload the id is
`SHA1("T|X|2025-11-10")`. -/
theorem approve_announcement_id_amended (existing existing' : List String)
    (d : AnnouncementData) :
    approve_announcement_chunk_id existing d =
      make_doc_id [optPy d.title, .pyStr (d.department.getD "공지사항"), optPy d.date] ∧
    approve_announcement_chunk_id existing d = approve_announcement_chunk_id existing' d ∧
    approve_announcement_chunk_id []
        ⟨some "T", some "C", some "2025-11-10", some "X", some "일반"⟩ =
      "26b934be79b8375772537d1b5eff84d24c974be3" := by
  exact ⟨rfl, rfl, by decide⟩

/-- C4 counterexample: on a concrete event payload, approval constructs a
Schedule record (not a Notice) with category 학과행사 (not 행사) and
upserts into the schedule collection (not the notices one); on a concrete
custom-knowledge payload it constructs a CustomKnowledge record whose
metadata category is the submitted one (not FAQ). -/
theorem approve_projection_counterexample :
    (approve_event ⟨some "E", some "설명", some "2025-11-10", some "2025-11-11", some "통계학과", none⟩).recordTable = "schedule" ∧
    (approve_event ⟨some "E", some "설명", some "2025-11-10", some "2025-11-11", some "통계학과", none⟩).recordTable ≠ "notices" ∧
    (approve_event ⟨some "E", some "설명", some "2025-11-10", some "2025-11-11", some "통계학과", none⟩).collectionName = "dongguk_schedule" ∧
    (approve_event ⟨some "E", some "설명", some "2025-11-10", some "2025-11-11", some "통계학과", none⟩).collectionName ≠ "dongguk_notices" ∧
    (approve_event ⟨some "E", some "설명", some "2025-11-10", some "2025-11-11", some "통계학과", none⟩).metaCategory = "학과행사" ∧
    (approve_event ⟨some "E", some "설명", some "2025-11-10", some "2025-11-11", some "통계학과", none⟩).metaCategory ≠ "행사" ∧
    (approve_custom_knowledge 1 ⟨"질문", some "답변", some "일반질문"⟩).recordTable = "custom_knowledge" ∧
    (approve_custom_knowledge 1 ⟨"질문", some "답변", some "일반질문"⟩).recordTable ≠ "notices" ∧
    (approve_custom_knowledge 1 ⟨"질문", some "답변", some "일반질문"⟩).metaCategory = "일반질문" ∧
    (approve_custom_knowledge 1 ⟨"질문", some "답변", some "일반질문"⟩).metaCategory ≠ "FAQ" := by
  decide

/-- C4 amended: event approval constructs a Schedule source record with
category 학과행사 and upserts the derived chunk into the
`dongguk_schedule` collection with `published_at` equal to the start date
(empty when absent); custom-knowledge approval constructs a
CustomKnowledge record and upserts its chunk into the `dongguk_notices`
collection with the submitted category (empty when falsy) and no
`published_at`; neither branch constructs a Notice record. -/
theorem approve_projection_amended (d : EventData) (ckId : Int)
    (c : CustomKnowledgeData) :
    (approve_event d).recordTable = "schedule" ∧
    (approve_event d).recordCategory = some "학과행사" ∧
    (approve_event d).collectionName = "dongguk_schedule" ∧
    (approve_event d).metaCategory = "학과행사" ∧
    (approve_event d).metaPublishedAt = some (d.start_date.getD "") ∧
    (approve_custom_knowledge ckId c).recordTable = "custom_knowledge" ∧
    (approve_custom_knowledge ckId c).recordCategory = c.category ∧
    (approve_custom_knowledge ckId c).collectionName = "dongguk_notices" ∧
    (approve_custom_knowledge ckId c).metaCategory = c.category.getD "" ∧
    (approve_custom_knowledge ckId c).metaPublishedAt = none := by
  exact ⟨rfl, rfl, rfl, rfl, rfl, rfl, rfl, rfl, rfl, rfl⟩

/-- C10: `make_doc_id` drops falsy arguments (None, the empty string, the
int 0) before joining with `|` and does not escape `|` inside parts, so
distinct input tuples collide: for truthy `a`, `b` the id of
`(a, None, b)`, `(a, "", b)`, `(a, 0, b)` and `(a, b)` coincide, and
`make_doc_id("a|b") = make_doc_id("a", "b")`. -/
theorem make_doc_id_falsy_collisions (a b : PyVal)
    (ha : a.truthy = true) (hb : b.truthy = true) :
    make_doc_id [a, .pyNone, b] = make_doc_id [a, b] ∧
    make_doc_id [a, .pyStr "", b] = make_doc_id [a, b] ∧
    make_doc_id [a, .pyInt 0, b] = make_doc_id [a, b] ∧
    make_doc_id [.pyStr "a|b"] = make_doc_id [.pyStr "a", .pyStr "b"] := by
  refine ⟨?_, ?_, ?_, by decide⟩ <;>
    simp [make_doc_id, List.filter, ha, hb, PyVal.truthy]

/-- C10 witness: the collisions at the concrete truthy parts `"x"`, `"y"`. -/
theorem make_doc_id_falsy_collisions_witness :
    (PyVal.pyStr "x").truthy = true ∧ (PyVal.pyStr "y").truthy = true ∧
    (make_doc_id [.pyStr "x", .pyNone, .pyStr "y"] = make_doc_id [.pyStr "x", .pyStr "y"] ∧
     make_doc_id [.pyStr "x", .pyStr "", .pyStr "y"] = make_doc_id [.pyStr "x", .pyStr "y"] ∧
     make_doc_id [.pyStr "x", .pyInt 0, .pyStr "y"] = make_doc_id [.pyStr "x", .pyStr "y"] ∧
     make_doc_id [.pyStr "a|b"] = make_doc_id [.pyStr "a", .pyStr "b"]) :=
  ⟨by decide, by decide,
   make_doc_id_falsy_collisions (.pyStr "x") (.pyStr "y") (by decide) (by decide)⟩

end RagSpec
namespace RagSpec

theorem mem_corpusTokens {tok t : String} {texts : List String}
    (ht : t ∈ texts) (htok : tok ∈ tokenize t) : tok ∈ corpusTokens texts := by
  induction texts with
  | nil => cases ht
  | cons x xs ih =>
    rcases List.mem_cons.mp ht with h | h
    · subst h
      exact List.mem_append.mpr (Or.inl htok)
    · exact List.mem_append.mpr (Or.inr (ih h))

theorem mem_dedupFirstGo {x : String} {seen l : List String}
    (hx : x ∈ l) (hseen : x ∉ seen) : x ∈ dedupFirstGo seen l := by
  induction l generalizing seen with
  | nil => cases hx
  | cons y ys ih =>
    simp only [dedupFirstGo]
    split
    · rename_i hy
      rcases List.mem_cons.mp hx with h | h
      · subst h
        simp only [List.contains_eq_any_beq, List.any_eq_true, beq_iff_eq] at hy
        obtain ⟨z, hz, rfl⟩ := hy
        exact absurd hz hseen
      · exact ih h hseen
    · rcases List.mem_cons.mp hx with h | h
      · subst h
        exact List.mem_cons_self x _
      · by_cases hxy : x = y
        · subst hxy
          exact List.mem_cons_self x _
        · refine List.mem_cons_of_mem y (ih h ?_)
          intro hc
          rcases List.mem_cons.mp hc with h1 | h1
          · exact hxy h1
          · exact hseen h1

/-- C5 counterexample: syncing a new chunk whose text holds the fresh
token `quantum` refits the TF-IDF model on the combined corpus, and the
fresh token is in the refit vocabulary although it was absent from the
pre-update vocabulary — the update does not transform with the existing
vocabulary only. -/
theorem sync_retrains_counterexample :
    (sync_dataset [⟨"id1", "hello world"⟩] [⟨"id2", "quantum"⟩]).retrainedCorpus =
      some ["hello world", "quantum"] ∧
    train_tfidf ["hello world", "quantum"] = some ["hello", "world", "quantum"] ∧
    "quantum" ∈ fitVocabulary ["hello world", "quantum"] ∧
    "quantum" ∉ fitVocabulary ["hello world"] := by
  decide

/-- C5 amended: when `sync_dataset` adds at least one genuinely new chunk,
it refits the TF-IDF model on the texts of the whole combined table (it
does not transform with the existing vocabulary), and every token of every
persisted chunk text — the new ones included — enters the refit
vocabulary whenever the distinct-term count stays within the 10000-feature
cap; so no sparse-model staleness of the claimed kind arises from this
path. -/
theorem sync_retrains_vocabulary_amended (existing newChunks : List SyncChunk)
    (hne : sync_filtered_new existing newChunks ≠ []) :
    (sync_dataset existing newChunks).retrainedCorpus =
      some ((sync_dataset existing newChunks).chunks.map (·.chunk_text)) ∧
    ∀ c ∈ (sync_dataset existing newChunks).chunks,
      ∀ tok ∈ tokenize c.chunk_text,
        (dedupFirst (corpusTokens ((sync_dataset existing newChunks).chunks.map (·.chunk_text)))).length ≤ 10000 →
        tok ∈ fitVocabulary ((sync_dataset existing newChunks).chunks.map (·.chunk_text)) := by
  have h1 : newChunks.isEmpty = false := by
    rcases hn : newChunks with _ | ⟨c, cs⟩
    · subst hn
      exact absurd rfl hne
    · rfl
  have h2 : (sync_filtered_new existing newChunks).isEmpty = false := by
    rcases hn : sync_filtered_new existing newChunks with _ | ⟨c, cs⟩
    · exact absurd hn hne
    · rfl
  have hsync : sync_dataset existing newChunks =
      ⟨dropDupChunksGo [] (existing ++ sync_filtered_new existing newChunks),
       (sync_filtered_new existing newChunks).length,
       some ((dropDupChunksGo [] (existing ++ sync_filtered_new existing newChunks)).map (·.chunk_text))⟩ := by
    simp only [sync_dataset, h1, h2, Bool.false_eq_true, if_false]
  rw [hsync]
  refine ⟨rfl, ?_⟩
  intro c hc tok htok hcap
  have htxt : c.chunk_text ∈
      (dropDupChunksGo [] (existing ++ sync_filtered_new existing newChunks)).map (·.chunk_text) :=
    List.mem_map_of_mem _ hc
  have hct := mem_corpusTokens htxt htok
  have hdd : tok ∈ dedupFirst
      (corpusTokens ((dropDupChunksGo [] (existing ++ sync_filtered_new existing newChunks)).map (·.chunk_text))) :=
    mem_dedupFirstGo hct (by simp)
  simp only [fitVocabulary]
  rw [List.take_of_length_le hcap]
  exact hdd

/-- C5 witness: the amended statement applied at the concrete
one-chunk-each instance. -/
theorem sync_retrains_vocabulary_amended_witness :
    sync_filtered_new [⟨"id1", "hello world"⟩] [⟨"id2", "quantum"⟩] ≠ [] ∧
    ((sync_dataset [⟨"id1", "hello world"⟩] [⟨"id2", "quantum"⟩]).retrainedCorpus =
      some ((sync_dataset [⟨"id1", "hello world"⟩] [⟨"id2", "quantum"⟩]).chunks.map (·.chunk_text)) ∧
    ∀ c ∈ (sync_dataset [⟨"id1", "hello world"⟩] [⟨"id2", "quantum"⟩]).chunks,
      ∀ tok ∈ tokenize c.chunk_text,
        (dedupFirst (corpusTokens ((sync_dataset [⟨"id1", "hello world"⟩] [⟨"id2", "quantum"⟩]).chunks.map (·.chunk_text)))).length ≤ 10000 →
        tok ∈ fitVocabulary ((sync_dataset [⟨"id1", "hello world"⟩] [⟨"id2", "quantum"⟩]).chunks.map (·.chunk_text))) :=
  ⟨by decide, sync_retrains_vocabulary_amended _ _ (by decide)⟩

/-- C6: any row returned by the date post-filter for a corpus in
{notices, schedule, rules} and a parsed range `[a, b]` has a
`published_at` that coerces to a date within `[a, b]`; in particular rows
whose date cannot be parsed are (silently) dropped. -/
theorem date_filter_in_range (dataset : String) (a b : Nat) (hits : List Hit)
    (h : Hit)
    (hds : dataset = "notices" ∨ dataset = "schedule" ∨ dataset = "rules")
    (hmem : h ∈ ask_date_filter dataset (some (a, b)) hits) :
    ∃ d, parseCanonicalDate h.published_at = some d ∧ a ≤ d ∧ d ≤ b := by
  simp only [ask_date_filter] at hmem
  by_cases hcond : (!hits.isEmpty &&
      (dataset == "notices" || dataset == "schedule" || dataset == "rules")) = true
  · rw [if_pos hcond] at hmem
    obtain ⟨hin, hpred⟩ := List.mem_filter.mp hmem
    rcases hp : parseCanonicalDate h.published_at with _ | d
    · rw [hp] at hpred
      cases hpred
    · rw [hp] at hpred
      rcases (Bool.and_eq_true _ _).mp hpred with ⟨ha, hb⟩
      exact ⟨d, rfl, of_decide_eq_true ha, of_decide_eq_true hb⟩
  · rw [if_neg hcond] at hmem
    exfalso
    apply hcond
    rw [Bool.and_eq_true, Bool.not_eq_true', List.isEmpty_eq_false_iff_exists_mem]
    constructor
    · exact ⟨h, hmem⟩
    · rcases hds with h1 | h1 | h1 <;> simp [h1]

/-- C6 witness: the date-filter guarantee applied to a concrete hit list
holding an in-range row, an unparseable row and an out-of-range row. -/
theorem date_filter_in_range_witness :
    ("notices" = "notices" ∨ "notices" = "schedule" ∨ "notices" = "rules") ∧
    (⟨"2025-11-10", "x"⟩ : Hit) ∈ ask_date_filter "notices" (some (20251110, 20251110))
      [⟨"2025-11-10", "x"⟩, ⟨"garbage", "y"⟩, ⟨"2025-11-12", "z"⟩] ∧
    (∃ d, parseCanonicalDate (Hit.published_at ⟨"2025-11-10", "x"⟩) = some d ∧
      20251110 ≤ d ∧ d ≤ 20251110) :=
  ⟨Or.inl rfl, by decide,
   date_filter_in_range "notices" 20251110 20251110
     [⟨"2025-11-10", "x"⟩, ⟨"garbage", "y"⟩, ⟨"2025-11-12", "z"⟩]
     ⟨"2025-11-10", "x"⟩ (Or.inl rfl) (by decide)⟩

end RagSpec

namespace RagSpec

theorem router_keys_known : ∀ x ∈ ROUTER_RULES.map (·.1), x ∈ knownCorpora := by
  decide

theorem keyword_route_spec (q : String) :
    keyword_route q ≠ [] ∧ (keyword_route q).Nodup ∧
    ∀ x ∈ keyword_route q, x ∈ knownCorpora := by
  simp only [keyword_route]
  have hsub : List.Sublist
      ((ROUTER_RULES.filter
        (fun r => r.2.any (fun kw => containsSeq (pyLower kw).data (pyLower q).data))).map (·.1))
      (ROUTER_RULES.map (·.1)) :=
    (List.filter_sublist _).map _
  split
  · refine ⟨by simp, by simp, ?_⟩
    intro x hx
    rw [List.mem_singleton.mp hx]
    decide
  · rename_i hne
    refine ⟨?_, ?_, ?_⟩
    · intro h
      rw [h] at hne
      exact hne rfl
    · exact (by decide : (ROUTER_RULES.map (·.1)).Nodup).sublist hsub
    · intro x hx
      exact router_keys_known x (hsub.mem hx)

theorem contains_true_mem {l : List String} {x : String}
    (h : l.contains x = true) : x ∈ l := by
  simp only [List.contains_eq_any_beq, List.any_eq_true, beq_iff_eq] at h
  obtain ⟨z, hz, rfl⟩ := h
  exact hz

theorem mem_contains_true {l : List String} {x : String}
    (h : x ∈ l) : l.contains x = true := by
  simp only [List.contains_eq_any_beq, List.any_eq_true, beq_iff_eq]
  exact ⟨x, h, rfl⟩

theorem unique_foldl_spec (labels : List String) (acc : List String)
    (haccd : acc.Nodup) (haccs : ∀ x ∈ acc, x ∈ knownCorpora) :
    (labels.foldl (fun acc label =>
      if (ROUTER_RULES.map (·.1)).contains label && !acc.contains label
      then acc ++ [label] else acc) acc).Nodup ∧
    ∀ x ∈ labels.foldl (fun acc label =>
      if (ROUTER_RULES.map (·.1)).contains label && !acc.contains label
      then acc ++ [label] else acc) acc, x ∈ knownCorpora := by
  induction labels generalizing acc with
  | nil => exact ⟨haccd, haccs⟩
  | cons l ls ih =>
    simp only [List.foldl_cons]
    split
    · rename_i hcond
      rcases (Bool.and_eq_true _ _).mp hcond with ⟨hkey, hnew⟩
      refine ih (acc ++ [l]) ?_ ?_
      · rw [List.nodup_append]
        refine ⟨haccd, List.nodup_singleton l, ?_⟩
        intro x hx hl
        rw [List.mem_singleton.mp hl] at hx
        rw [Bool.not_eq_true'] at hnew
        rw [mem_contains_true hx] at hnew
        cases hnew
      · intro x hx
        rcases List.mem_append.mp hx with h | h
        · exact haccs x h
        · rw [List.mem_singleton.mp h]
          exact router_keys_known l (contains_true_mem hkey)
    · exact ih acc haccd haccs

theorem route_final_spec (labels : List String) (stripped : String) :
    (if (labels.foldl (fun acc label =>
        if (ROUTER_RULES.map (·.1)).contains label && !acc.contains label
        then acc ++ [label] else acc) []).isEmpty = true
     then keyword_route stripped
     else labels.foldl (fun acc label =>
        if (ROUTER_RULES.map (·.1)).contains label && !acc.contains label
        then acc ++ [label] else acc) []) ≠ [] ∧
    (if (labels.foldl (fun acc label =>
        if (ROUTER_RULES.map (·.1)).contains label && !acc.contains label
        then acc ++ [label] else acc) []).isEmpty = true
     then keyword_route stripped
     else labels.foldl (fun acc label =>
        if (ROUTER_RULES.map (·.1)).contains label && !acc.contains label
        then acc ++ [label] else acc) []).Nodup ∧
    ∀ x ∈ (if (labels.foldl (fun acc label =>
        if (ROUTER_RULES.map (·.1)).contains label && !acc.contains label
        then acc ++ [label] else acc) []).isEmpty = true
     then keyword_route stripped
     else labels.foldl (fun acc label =>
        if (ROUTER_RULES.map (·.1)).contains label && !acc.contains label
        then acc ++ [label] else acc) []), x ∈ knownCorpora := by
  have hu := unique_foldl_spec labels [] List.nodup_nil (by intro x hx; cases hx)
  split
  · exact keyword_route_spec stripped
  · rename_i hne
    refine ⟨?_, hu.1, hu.2⟩
    intro h
    rw [h] at hne
    exact hne rfl

end RagSpec

namespace RagSpec

/-- C8 amended: `route_query` always returns a non-empty duplicate-free
ordered subset of the known corpus set {notices, rules, schedule, courses,
staff}; but on a routing error or empty intermediate result it falls back
to keyword routing over `ROUTER_RULES` (which returns `[notices]` only
when no keyword matches), not to a fixed `[notices]` default. -/
theorem route_query_amended (query : String) (model : Option RouterModelOutput) :
    route_query query model ≠ [] ∧
    (route_query query model).Nodup ∧
    (∀ x ∈ route_query query model, x ∈ knownCorpora) ∧
    route_query query none =
      (if (pyStrip query.data).isEmpty then ["notices"]
       else keyword_route (String.mk (pyStrip query.data))) := by
  have hprops : route_query query model ≠ [] ∧ (route_query query model).Nodup ∧
      ∀ x ∈ route_query query model, x ∈ knownCorpora := by
    simp only [route_query]
    split
    · exact ⟨by simp, by simp, by intro x hx; rw [List.mem_singleton.mp hx]; decide⟩
    · rcases model with _ | out
      · exact keyword_route_spec _
      · rcases hord : argsortDesc out.probabilities with _ | ⟨topIdx, rest⟩
        · simp only [hord]
          exact keyword_route_spec _
        · simp only [hord]
          exact route_final_spec _ _
  have heq : route_query query none =
      (if (pyStrip query.data).isEmpty then ["notices"]
       else keyword_route (String.mk (pyStrip query.data))) := rfl
  exact ⟨hprops.1, hprops.2.1, hprops.2.2, heq⟩

end RagSpec

namespace RagSpec

set_option maxRecDepth 200000

/-- C8 counterexample: on the query 학칙 the error fallback (no usable
classifier) routes to `["rules"]` by keyword, which does not contain
`notices` — the fallback is not a `[notices]` default route. -/
theorem route_fallback_counterexample :
    route_query "학칙" none = ["rules"] ∧
    "notices" ∉ route_query "학칙" none := by
  decide

/-- C9 counterexample: on the input `"a  b"` with size 3 and overlap 0,
`chunk_text` does not produce the character windows of the input text
itself (it windows the whitespace-normalized text instead): the claimed
window list is `["a  ", "b"]` while the function returns `["a b"]`. -/
theorem chunk_text_windows_counterexample :
    chunk_text "a  b".data 3 0 ≠ claimWindows "a  b".data 3 (max 1 (3 - 0)) ∧
    chunk_text "a  b".data 3 0 = ["a b".data] ∧
    claimWindows "a  b".data 3 (max 1 (3 - 0)) = ["a  ".data, "b".data] := by
  refine ⟨by decide, by decide, by decide⟩

theorem claimWindowsGo_eq_chunkTextLoop (fuel : Nat) (t : List Char)
    (size sp : Nat) : ∀ start,
    claimWindowsGo fuel t size (sp + 1) start = chunkTextLoop fuel t size sp start := by
  induction fuel with
  | zero => intro start; rfl
  | succ n ih =>
    intro start
    simp only [claimWindowsGo, chunkTextLoop]
    by_cases h : start < t.length
    · simp only [if_pos h]
      by_cases h2 : t.length ≤ start + size
      · simp only [if_pos h2, ge_iff_le]
      · simp only [if_neg h2, ge_iff_le]
        rw [show start + (sp + 1) = start + sp + 1 from rfl]
        rw [ih (start + sp + 1)]
    · simp only [if_neg h]

theorem chunkTextLoop_length_le (fuel : Nat) (t : List Char) (size sp : Nat) :
    ∀ start seg, seg ∈ chunkTextLoop fuel t size sp start → seg.length ≤ size := by
  induction fuel with
  | zero => intro start seg h; cases h
  | succ n ih =>
    intro start seg h
    simp only [chunkTextLoop] at h
    by_cases h1 : start < t.length
    · rw [if_pos h1] at h
      by_cases h2 : t.length ≤ start + size
      · rw [if_pos h2] at h
        rw [List.mem_singleton.mp h]
        simp only [List.length_take]
        exact min_le_left _ _
      · rw [if_neg h2] at h
        rcases List.mem_cons.mp h with h3 | h3
        · rw [h3]
          simp only [List.length_take]
          exact min_le_left _ _
        · exact ih (start + sp + 1) seg h3
    · rw [if_neg h1] at h
      cases h

/-- C9 amended: for positive size, `chunk_text(text, size, overlap)`
produces exactly the character windows of the whitespace-normalized text
(not of the raw input), at starts `0, step, 2·step, ...` with
`step = max(1, size - overlap)`, terminating when a window reaches the end
of the normalized text; the function is total by construction and every
produced segment has length at most `size`. -/
theorem chunk_text_amended (text : List Char) (size overlap : Nat)
    (hsize : 0 < size) :
    chunk_text text size overlap =
      claimWindows (normalize_whitespace text) size (max 1 (size - overlap)) ∧
    ∀ seg ∈ chunk_text text size overlap, seg.length ≤ size := by
  have hstep : max 1 (size - overlap) - 1 + 1 = max 1 (size - overlap) := by
    have : 1 ≤ max 1 (size - overlap) := le_max_left _ _
    omega
  have hmain : chunk_text text size overlap =
      claimWindows (normalize_whitespace text) size (max 1 (size - overlap)) := by
    simp only [chunk_text, claimWindows]
    by_cases ht : text = []
    · rw [if_pos ht, ht]
      rfl
    · rw [if_neg ht]
      by_cases ht2 : normalize_whitespace text = []
      · rw [if_pos ht2, ht2]
        rfl
      · rw [if_neg ht2]
        rw [← hstep, claimWindowsGo_eq_chunkTextLoop, Nat.add_sub_cancel]
  refine ⟨hmain, ?_⟩
  intro seg hseg
  simp only [chunk_text] at hseg
  by_cases ht : text = []
  · rw [if_pos ht] at hseg
    cases hseg
  · rw [if_neg ht] at hseg
    by_cases ht2 : normalize_whitespace text = []
    · rw [if_pos ht2] at hseg
      cases hseg
    · rw [if_neg ht2] at hseg
      exact chunkTextLoop_length_le _ _ _ _ _ seg hseg

/-- C9 witness: the amended statement applied at a concrete text, size
and overlap. -/
theorem chunk_text_amended_witness :
    0 < 2 ∧
    (chunk_text "abc".data 2 0 =
      claimWindows (normalize_whitespace "abc".data) 2 (max 1 (2 - 0)) ∧
    ∀ seg ∈ chunk_text "abc".data 2 0, seg.length ≤ 2) :=
  ⟨by decide, chunk_text_amended "abc".data 2 0 (by decide)⟩

end RagSpec

namespace RagSpec

/-- C1: in hybrid retrieval the candidate set is the dense-result ids
alone when a metadata filter was supplied and the union of dense and
sparse ids otherwise; every candidate is scored
`alpha * dense + (1 - alpha) * sparse` with missing scores defaulting to
0; and the top list is the candidates sorted by that score descending,
truncated to `top_k` (so it is score-sorted, at most `top_k` long, and
drawn from the scored candidates).  `vecScores`/`sparseScores` are the
dense and sparse score dicts the source builds, with `limit = top_k * 3`. -/
theorem hybrid_fusion_spec (chunkIds vecIds : List String)
    (vecDists sparseSims : List ℚ) (top_k : Nat) (alpha : ℚ)
    (hasFilter : Bool) :
    (∀ cid, cid ∈ hybridCandidates (vecScores vecIds vecDists)
        (sparseScores chunkIds sparseSims (top_k * 3)) hasFilter ↔
      (if hasFilter then cid ∈ dictKeys (vecScores vecIds vecDists)
       else cid ∈ dictKeys (vecScores vecIds vecDists) ∨
         cid ∈ dictKeys (sparseScores chunkIds sparseSims (top_k * 3)))) ∧
    (∀ p ∈ hybridScored (vecScores vecIds vecDists)
        (sparseScores chunkIds sparseSims (top_k * 3)) alpha
        (hybridCandidates (vecScores vecIds vecDists)
          (sparseScores chunkIds sparseSims (top_k * 3)) hasFilter),
      p.2 = alpha * dictGet (vecScores vecIds vecDists) p.1 0 +
        (1 - alpha) * dictGet (sparseScores chunkIds sparseSims (top_k * 3)) p.1 0) ∧
    (∀ scored : List (String × ℚ),
      hybridTop scored top_k = (sortBy (fun a b => decide (b.2 ≤ a.2)) scored).take top_k ∧
      (hybridTop scored top_k).Pairwise (fun a b => b.2 ≤ a.2) ∧
      (hybridTop scored top_k).length ≤ top_k ∧
      ∀ p ∈ hybridTop scored top_k, p ∈ scored) := by
  refine ⟨?_, ?_, ?_⟩
  · intro cid
    cases hasFilter with
    | true => simp [hybridCandidates]
    | false =>
      simp only [hybridCandidates, if_neg (by simp : ¬(false = true)),
        List.mem_append, List.mem_filter, Bool.not_eq_true', if_false]
      constructor
      · rintro (h | ⟨h, _⟩)
        · exact Or.inl h
        · exact Or.inr h
      · rintro (h | h)
        · exact Or.inl h
        · by_cases hv : cid ∈ dictKeys (vecScores vecIds vecDists)
          · exact Or.inl hv
          · refine Or.inr ⟨h, ?_⟩
            exact Bool.eq_false_iff.mpr (fun hc => hv (contains_true_mem hc))
  · intro p hp
    obtain ⟨cid, _, rfl⟩ := List.mem_map.mp hp
    rfl
  · intro scored
    have htrans : ∀ a b c : String × ℚ,
        (fun a b => decide (b.2 ≤ a.2)) a b = true →
        (fun a b => decide (b.2 ≤ a.2)) b c = true →
        (fun a b => decide (b.2 ≤ a.2)) a c = true := by
      intro a b c h1 h2
      simp only [decide_eq_true_eq] at h1 h2 ⊢
      exact le_trans h2 h1
    have htot : ∀ a b : String × ℚ,
        (fun a b => decide (b.2 ≤ a.2)) a b = true ∨
        (fun a b => decide (b.2 ≤ a.2)) b a = true := by
      intro a b
      simp only [decide_eq_true_eq]
      exact le_total b.2 a.2
    have hsorted := pairwise_sortBy htrans htot scored
    refine ⟨rfl, ?_, ?_, ?_⟩
    · have h1 : (hybridTop scored top_k).Pairwise
          (fun a b => (fun a b => decide (b.2 ≤ a.2)) a b = true) :=
        hsorted.sublist (List.take_sublist _ _)
      exact h1.imp (fun h => of_decide_eq_true h)
    · simp only [hybridTop, List.length_take]
      exact min_le_left _ _
    · intro p hp
      exact mem_sortBy.mp (List.mem_of_mem_take hp)

end RagSpec

namespace RagSpec

/-- C7: for a row of a non-empty merged set, `norm_hybrid` and
`norm_recency` lie in [0,1] and default to 1.0 when the column maximum
equals its minimum; a missing date is treated as the minimum valid
timestamp; the fused score `(1 - W) * norm_hybrid + W * norm_recency`
lies in [0,1] for a weight in [0,1]; and when every row's date is missing
the recency term is 0 for every row, so the final score is
`(1 - W) * norm_hybrid` and (for `W < 1`) ordering is decided by the
hybrid score. -/
theorem rerank_normalization_spec (rows : List RankRow) (r : RankRow) (W : ℚ)
    (hr : r ∈ rows) (hW0 : 0 ≤ W) (hW1 : W ≤ 1) :
    (0 ≤ norm_hybrid rows r ∧ norm_hybrid rows r ≤ 1) ∧
    (0 ≤ norm_recency rows r ∧ norm_recency rows r ≤ 1) ∧
    (listMin (hybridCol rows) = listMax (hybridCol rows) → norm_hybrid rows r = 1) ∧
    (r.sort_date = none → sortTimestamp rows r = listMin (validDates rows)) ∧
    (0 ≤ final_score W rows r ∧ final_score W rows r ≤ 1) ∧
    ((∀ r' ∈ rows, r'.sort_date = none) →
      norm_recency rows r = 0 ∧
      final_score W rows r = (1 - W) * norm_hybrid rows r ∧
      (W < 1 → ∀ r₂ ∈ rows,
        (final_score W rows r ≤ final_score W rows r₂ ↔
         norm_hybrid rows r ≤ norm_hybrid rows r₂))) := by
  have hmemH : r.hybrid_score ∈ hybridCol rows := List.mem_map_of_mem _ hr
  have hH : 0 ≤ norm_hybrid rows r ∧ norm_hybrid rows r ≤ 1 := by
    simp only [norm_hybrid]
    split
    · rename_i hlt
      have h1 := listMin_le_of_mem hmemH
      have h2 := le_listMax_of_mem hmemH
      constructor
      · exact div_nonneg (by linarith) (by linarith)
      · rw [div_le_one (by linarith)]
        linarith
    · exact ⟨by norm_num, le_refl 1⟩
  have hR : 0 ≤ norm_recency rows r ∧ norm_recency rows r ≤ 1 := by
    simp only [norm_recency]
    split
    · exact ⟨le_refl 0, by norm_num⟩
    · rename_i hvne
      obtain ⟨m, hm⟩ := List.exists_mem_of_ne_nil _ hvne
      have hts : listMin (validDates rows) ≤ sortTimestamp rows r ∧
          sortTimestamp rows r ≤ listMax (validDates rows) := by
        rcases hsd : r.sort_date with _ | d
        · simp only [sortTimestamp, hsd, Option.getD_none]
          exact ⟨le_refl _, le_trans (listMin_le_of_mem hm) (le_listMax_of_mem hm)⟩
        · have hd : d ∈ validDates rows := List.mem_filterMap.mpr ⟨r, hr, hsd⟩
          simp only [sortTimestamp, hsd, Option.getD_some]
          exact ⟨listMin_le_of_mem hd, le_listMax_of_mem hd⟩
      split
      · rename_i hlt
        constructor
        · exact div_nonneg (by linarith [hts.1]) (by linarith)
        · rw [div_le_one (by linarith)]
          linarith [hts.2]
      · exact ⟨by norm_num, le_refl 1⟩
  have hRdef : listMin (hybridCol rows) = listMax (hybridCol rows) →
      norm_hybrid rows r = 1 := by
    intro heq
    simp only [norm_hybrid, heq, lt_irrefl, if_false]
  have hTs : r.sort_date = none → sortTimestamp rows r = listMin (validDates rows) := by
    intro h
    simp only [sortTimestamp, h, Option.getD_none]
  have hF : 0 ≤ final_score W rows r ∧ final_score W rows r ≤ 1 := by
    simp only [final_score]
    constructor
    · have h1 : 0 ≤ (1 - W) * norm_hybrid rows r :=
        mul_nonneg (by linarith) hH.1
      have h2 : 0 ≤ W * norm_recency rows r := mul_nonneg hW0 hR.1
      linarith
    · have h1 : (1 - W) * norm_hybrid rows r ≤ (1 - W) * 1 :=
        mul_le_mul_of_nonneg_left hH.2 (by linarith)
      have h2 : W * norm_recency rows r ≤ W * 1 :=
        mul_le_mul_of_nonneg_left hR.2 hW0
      linarith
  refine ⟨hH, hR, hRdef, hTs, hF, ?_⟩
  intro hall
  have hvd : validDates rows = [] := List.filterMap_eq_nil_iff.mpr hall
  have hnr0 : ∀ r' : RankRow, norm_recency rows r' = 0 := by
    intro r'
    simp [norm_recency, hvd]
  refine ⟨hnr0 r, ?_, ?_⟩
  · simp only [final_score, hnr0 r]
    ring
  · intro hW1' r₂ hr2
    simp only [final_score, hnr0 r, hnr0 r₂, mul_zero, add_zero]
    exact mul_le_mul_left (by linarith)

/-- C7 witness: the normalization bounds applied to a concrete two-row
merged set with the configured default recency weight. -/
theorem rerank_normalization_spec_witness :
    (⟨1, some 1⟩ : RankRow) ∈ ([⟨1, some 1⟩, ⟨0, none⟩] : List RankRow) ∧
    0 ≤ RECENCY_WEIGHT ∧ RECENCY_WEIGHT ≤ 1 ∧
    ((0 ≤ norm_hybrid [⟨1, some 1⟩, ⟨0, none⟩] ⟨1, some 1⟩ ∧
      norm_hybrid [⟨1, some 1⟩, ⟨0, none⟩] ⟨1, some 1⟩ ≤ 1) ∧
     (0 ≤ norm_recency [⟨1, some 1⟩, ⟨0, none⟩] ⟨1, some 1⟩ ∧
      norm_recency [⟨1, some 1⟩, ⟨0, none⟩] ⟨1, some 1⟩ ≤ 1) ∧
     (listMin (hybridCol [⟨1, some 1⟩, ⟨0, none⟩]) =
        listMax (hybridCol [⟨1, some 1⟩, ⟨0, none⟩]) →
      norm_hybrid [⟨1, some 1⟩, ⟨0, none⟩] ⟨1, some 1⟩ = 1) ∧
     ((⟨1, some 1⟩ : RankRow).sort_date = none →
      sortTimestamp [⟨1, some 1⟩, ⟨0, none⟩] ⟨1, some 1⟩ =
        listMin (validDates [⟨1, some 1⟩, ⟨0, none⟩])) ∧
     (0 ≤ final_score RECENCY_WEIGHT [⟨1, some 1⟩, ⟨0, none⟩] ⟨1, some 1⟩ ∧
      final_score RECENCY_WEIGHT [⟨1, some 1⟩, ⟨0, none⟩] ⟨1, some 1⟩ ≤ 1) ∧
     ((∀ r' ∈ ([⟨1, some 1⟩, ⟨0, none⟩] : List RankRow), r'.sort_date = none) →
      norm_recency [⟨1, some 1⟩, ⟨0, none⟩] ⟨1, some 1⟩ = 0 ∧
      final_score RECENCY_WEIGHT [⟨1, some 1⟩, ⟨0, none⟩] ⟨1, some 1⟩ =
        (1 - RECENCY_WEIGHT) * norm_hybrid [⟨1, some 1⟩, ⟨0, none⟩] ⟨1, some 1⟩ ∧
      (RECENCY_WEIGHT < 1 → ∀ r₂ ∈ ([⟨1, some 1⟩, ⟨0, none⟩] : List RankRow),
        (final_score RECENCY_WEIGHT [⟨1, some 1⟩, ⟨0, none⟩] ⟨1, some 1⟩ ≤
           final_score RECENCY_WEIGHT [⟨1, some 1⟩, ⟨0, none⟩] r₂ ↔
         norm_hybrid [⟨1, some 1⟩, ⟨0, none⟩] ⟨1, some 1⟩ ≤
           norm_hybrid [⟨1, some 1⟩, ⟨0, none⟩] r₂)))) :=
  ⟨List.mem_cons_self _ _, by norm_num [RECENCY_WEIGHT], by norm_num [RECENCY_WEIGHT],
   rerank_normalization_spec [⟨1, some 1⟩, ⟨0, none⟩] ⟨1, some 1⟩ RECENCY_WEIGHT
     (List.mem_cons_self _ _) (by norm_num [RECENCY_WEIGHT]) (by norm_num [RECENCY_WEIGHT])⟩

end RagSpec

namespace RagSpec

set_option maxRecDepth 200000

/-- Reference checks for the SHA1 embedding against standard digests. -/
theorem sha1_reference_checks :
    sha1HexOfString "abc" = "a9993e364706816aba3e25717850c26c9cd0d89d" ∧
    sha1HexOfString "" = "da39a3ee5e6b4b0d3255bfef95601890afd80709" ∧
    sha1HexOfString "공지|테스트" = "5ebb25c71f8ce72de64a53b45cdd582f4946b21c" := by
  refine ⟨by decide, by decide, by decide⟩

/-- Reference checks for the `normalize_whitespace` embedding against the
behaviour of the source regex pipeline on concrete inputs. -/
theorem normalize_whitespace_reference_checks :
    normalize_whitespace "a  b".data = "a b".data ∧
    normalize_whitespace "a\nb".data = "a b".data ∧
    normalize_whitespace "1\n가 2\n나".data = "1가 2나".data ∧
    normalize_whitespace "hi ( x ) there".data = "hi(x)there".data ∧
    normalize_whitespace "a . B".data = "a.\nB".data ∧
    normalize_whitespace "end. 가나다".data = "end.\n가나다".data ∧
    normalize_whitespace "x  '  y".data = "x' y".data ∧
    normalize_whitespace "line1\n\n\nline2".data = "line1\nline2".data ∧
    normalize_whitespace "a\n\nb.c".data = "a\nb. c".data ∧
    normalize_whitespace "price: 3/4 ok".data = "price: 3/ 4 ok".data ∧
    normalize_whitespace "(a)\n(b)".data = "(a)(b)".data ∧
    normalize_whitespace "  pad  ".data = "pad".data ∧
    normalize_whitespace "!  A!  a".data = "!\nA! a".data ∧
    normalize_whitespace "x\t\xa0y".data = "x y".data := by
  refine ⟨by decide, by decide, by decide, by decide, by decide, by decide, by decide,
    by decide, by decide, by decide, by decide, by decide, by decide, by decide⟩

/-- Reference checks for the routing and chunking embeddings on concrete
inputs. -/
theorem router_and_chunk_reference_checks :
    route_query "" none = ["notices"] ∧
    route_query "블라블라" none = ["notices"] ∧
    keyword_route "장학 일정" = ["notices", "schedule"] ∧
    chunk_text "abcde".data 2 0 = [['a','b'],['c','d'],['e']] ∧
    chunk_text "abcde".data 3 1 = [['a','b','c'],['c','d','e']] ∧
    parseCanonicalDate "2025-11-10" = some 20251110 ∧
    parseCanonicalDate "2025-13-10" = none ∧
    parseCanonicalDate "" = none := by
  refine ⟨by decide, by decide, by decide, by decide, by decide, by decide,
    by decide, by decide⟩

end RagSpec
